import Mathlib

/-!
# CampaignQA — verification of the check data model, Comparator, Scorer,
# submit handler and run-status machine

Shallow embedding of the parts of the CampaignQA repository that the
specification's claims are about:

* the `CheckResult` data model (`frontend/src/lib/api.ts`, `supabase_schema.sql`);
* the Comparator `diffChecks` and its `STATUS_RANK` table
  (`frontend/src/pages/ComparePage.tsx`);
* the run-submission handler `handleSubmit` (`NewRunPage`);
* the readiness Scorer and the run state machine, modelled from the spec
  (their backend implementation, `backend/agents/pipeline.py`, is not part
  of the available sources).

JavaScript collection semantics are embedded explicitly: a `Map` built from
a list keeps, for each key, the **last** value inserted; a `Set` keeps keys
in first-insertion order; `Array.prototype.sort` is a **stable** sort by the
comparator, which for the four-valued key used here is extensionally the
stable insertion sort `List.insertionSort`.
-/

namespace CampaignQA

/-- Check status, from the `status` union type in `frontend/src/lib/api.ts`
(`'passed' | 'failed' | 'warning' | 'skipped' | 'error'`) and the SQL CHECK
constraint on `check_results.status`. -/
inductive CheckStatus where
  | passed
  | failed
  | warning
  | skipped
  | error
deriving DecidableEq, Repr

/-- Check severity, from the `severity` union type in `frontend/src/lib/api.ts`
(`'critical' | 'major' | 'minor'`). -/
inductive Severity where
  | critical
  | major
  | minor
deriving DecidableEq, Repr

/-- A check result row, from `interface CheckResult` in `frontend/src/lib/api.ts`. -/
structure CheckResult where
  check_id : String
  check_name : String
  check_category : String
  platform : String
  status : CheckStatus
  severity : Severity
  message : String
  recommendation : Option String
  affected_items : List String
  execution_ms : Nat
deriving DecidableEq, Repr

/-- Diff classification, from `type DiffStatus` in `ComparePage.tsx`. -/
inductive DiffStatus where
  | improved
  | regressed
  | unchanged
  | new
deriving DecidableEq, Repr

/-- One row of the comparison table, from `interface CheckDiff` in
`ComparePage.tsx`. -/
structure CheckDiff where
  checkId : String
  checkName : String
  checkCategory : String
  severity : Severity
  statusA : Option CheckStatus
  statusB : Option CheckStatus
  diff : DiffStatus
deriving DecidableEq, Repr

/-- `STATUS_RANK` from `ComparePage.tsx`:
`{ passed: 3, warning: 2, skipped: 1, error: 0, failed: 0 }`.
The TypeScript record is total on the five-valued status type, so the
`?? 0` fallback in `diffChecks` is never exercised. -/
def STATUS_RANK : CheckStatus → Int
  | .passed => 3
  | .warning => 2
  | .skipped => 1
  | .error => 0
  | .failed => 0

/-- The identifiers of a result list, in order (`a.map(c => c.check_id)`). -/
def checkIds (l : List CheckResult) : List String :=
  l.map (·.check_id)

/-- Lookup in the JS `Map` built by `new Map(a.map(c => [c.check_id, c]))`:
for a duplicated key the last inserted value wins, hence the search from
the right. -/
def mapGet (l : List CheckResult) (id : String) : Option CheckResult :=
  l.reverse.find? (fun c => c.check_id = id)

/-- Key list of the same JS `Map`: distinct keys in first-insertion order. -/
def setInsert (acc : List String) (x : String) : List String :=
  if x ∈ acc then acc else acc ++ [x]

/-- JS `Set` built from a key list: distinct elements, first occurrence wins,
insertion order preserved. -/
def setDedup (l : List String) : List String :=
  l.foldl setInsert []

/-- `allIds` from `diffChecks`: `new Set([...aMap.keys(), ...bMap.keys()])`.
Since a JS `Map`'s key list already has no duplicates and the `Set`
deduplicates across the concatenation, this is the ordered dedup of the two
identifier lists. -/
def allIds (a b : List CheckResult) : List String :=
  setDedup (checkIds a ++ checkIds b)

/-- Rank of an optional lookup result in `diffChecks`:
`ca ? (STATUS_RANK[ca.status] ?? 0) : -1`. -/
def rankOf : Option CheckResult → Int
  | some c => STATUS_RANK c.status
  | none => -1

/-- The body of the `for (const id of allIds)` loop in `diffChecks`: build the
`CheckDiff` row for one identifier. -/
def mkDiff (a b : List CheckResult) (id : String) : CheckDiff :=
  let ca := mapGet a id
  let cb := mapGet b id
  let rankA := rankOf ca
  let rankB := rankOf cb
  let diff : DiffStatus :=
    if rankA = -1 then .new
    else if rankB > rankA then .improved
    else if rankB < rankA then .regressed
    else .unchanged
  { checkId := id
    checkName := ((cb.map (·.check_name)).orElse fun _ => ca.map (·.check_name)).getD id
    checkCategory := ((cb.map (·.check_category)).orElse fun _ => ca.map (·.check_category)).getD ""
    severity := ((cb.map (·.severity)).orElse fun _ => ca.map (·.severity)).getD .minor
    statusA := ca.map (·.status)
    statusB := cb.map (·.status)
    diff := diff }

/-- The sort key from `diffChecks`:
`order = { regressed: 0, improved: 1, new: 2, unchanged: 3 }`. -/
def diffOrder : DiffStatus → Nat
  | .regressed => 0
  | .improved => 1
  | .new => 2
  | .unchanged => 3

/-- The sort relation `(a, b) => order[a.diff] - order[b.diff]`. -/
def diffLe (x y : CheckDiff) : Prop :=
  diffOrder x.diff ≤ diffOrder y.diff

instance : DecidableRel diffLe := fun _ _ => Nat.decLe _ _

instance : IsTotal CheckDiff diffLe := ⟨fun x y => Nat.le_total (diffOrder x.diff) (diffOrder y.diff)⟩

instance : IsTrans CheckDiff diffLe := ⟨fun _ _ _ => Nat.le_trans⟩

/-- `diffChecks` from `ComparePage.tsx`.  `Array.prototype.sort` is stable and
the comparator orders by the four-valued `order` key, so the result is the
stable insertion sort of the per-identifier rows by that key. -/
def diffChecks (a b : List CheckResult) : List CheckDiff :=
  List.insertionSort diffLe ((allIds a b).map (mkDiff a b))

/-- Classification of the identifier `id` in the comparison of `a` (before)
and `b` (after): the `diff` field of the unique row for `id`, found in the
output list. -/
def diffOf (a b : List CheckResult) (id : String) : Option DiffStatus :=
  ((diffChecks a b).find? (fun d => d.checkId = id)).map (·.diff)

/-! ## Run submission (`NewRunPage`, `handleSubmit`)

From the `NewRunPage` source (the CSV-capable version whose `handleSubmit`
the spec describes).  The handler validates the form and either sets an
error message and returns — in which case `api.createRun` is never called —
or builds a `CreateRunPayload` and calls `api.createRun` with it.  The
embedding returns `Except.error msg` in the first case and
`Except.ok payload` in the second. -/

/-- One URL entry of a submission (`type UrlEntry` in `NewRunPage`). -/
structure UrlEntry where
  url : String
  ad_name : Option String := none
  ad_set_name : Option String := none
  campaign_name : Option String := none
deriving DecidableEq, Repr

/-- The two input modes of the URL field (`urlMode` state). -/
inductive UrlMode where
  | paste
  | csv
deriving DecidableEq, Repr

/-- The form state of `NewRunPage` (the fields read by `handleSubmit`). -/
structure SubmitForm where
  run_name : String
  platform : String
  urlsRaw : String
  campaign_name : String
  campaign_objective : String
  industry_vertical : String
  headline : String
  primary_text : String
  description : String
deriving DecidableEq, Repr

/-- `CreateRunPayload` from `frontend/src/lib/api.ts`. -/
structure CreateRunPayload where
  run_name : String
  platform : String
  urls : List UrlEntry
  campaign_name : Option String
  campaign_objective : Option String
  industry_vertical : Option String
  headline : Option String
  primary_text : Option String
  description : Option String
deriving DecidableEq, Repr

/-- `form.x || undefined`: an empty string is falsy in JS, so it becomes
`undefined` in the payload. -/
def strOrNone (s : String) : Option String :=
  if s = "" then none else some s

/-- The URL entry list `handleSubmit` would submit:
in CSV mode the parsed `csvEntries`, in paste mode
`form.urlsRaw.split('\n').map(l => l.trim()).filter(Boolean)` wrapped as
entries. -/
def submittedUrls (urlMode : UrlMode) (csvEntries : List UrlEntry)
    (urlsRaw : String) : List UrlEntry :=
  match urlMode with
  | .csv => csvEntries
  | .paste =>
    (((urlsRaw.splitOn "\n").map String.trim).filter (· ≠ "")).map
      (fun u => { url := u })

/-- The tail of `handleSubmit` once the URL entry list is determined: the
run-name check, the 50-URL cap, then the `CreateRunPayload` passed to
`api.createRun`. -/
def submitTail (form : SubmitForm) (urls : List UrlEntry) :
    Except String CreateRunPayload :=
  if form.run_name.trim = "" then .error "Give this run a name"
  else if urls.length > 50 then .error "Maximum 50 URLs per run"
  else .ok
    { run_name := form.run_name
      platform := form.platform
      urls := urls
      campaign_name := strOrNone form.campaign_name
      campaign_objective := strOrNone form.campaign_objective
      industry_vertical := strOrNone form.industry_vertical
      headline := strOrNone form.headline
      primary_text := strOrNone form.primary_text
      description := strOrNone form.description }

/-- `handleSubmit` from `NewRunPage`: validation order as in the source —
empty URL list (per mode), then empty run name, then the 50-URL cap; on
success the payload passed to `api.createRun`. -/
def handleSubmit (urlMode : UrlMode) (csvEntries : List UrlEntry)
    (form : SubmitForm) : Except String CreateRunPayload :=
  match urlMode with
  | .csv =>
    if csvEntries.length = 0 then .error "Upload a CSV file with at least one URL"
    else submitTail form csvEntries
  | .paste =>
    let rawLines := ((form.urlsRaw.splitOn "\n").map String.trim).filter (· ≠ "")
    if rawLines.length = 0 then .error "Add at least one URL"
    else submitTail form (rawLines.map (fun u => { url := u }))

/-! ## Scorer

Modelled from the spec: the Scorer implementation (`backend/agents/pipeline.py`,
"Tier 1/2 executor, score calc") is not among the available sources; only its
documentation is (the readiness-score formula section of the repository
README and spec §4.5).  Definitions below follow the spec's words:
weight(critical)=4, weight(major)=2, weight(minor)=1; credit is the full
weight for `passed`, half the weight for `warning`, 0 for `failed`;
`skipped` and `error` results are excluded from numerator and denominator;
`score = 100 × Σcredit / Σweight` over the counted results, 0 when the
counted denominator is zero, rounded to one decimal place. -/

/-- Modelled from the spec: severity weights of the readiness-score formula. -/
def weight : Severity → ℚ
  | .critical => 4
  | .major => 2
  | .minor => 1

/-- Modelled from the spec: a result is counted unless its status is
`skipped` or `error`. -/
def isCounted (r : CheckResult) : Bool :=
  match r.status with
  | .skipped => false
  | .error => false
  | _ => true

/-- Modelled from the spec: credit of a counted result — full weight for
`passed`, half for `warning`, zero for `failed`. -/
def credit (r : CheckResult) : ℚ :=
  match r.status with
  | .passed => weight r.severity
  | .warning => weight r.severity / 2
  | _ => 0

/-- Modelled from the spec: the readiness score of a result set —
`100 × Σcredit / Σweight` over counted results, `0` when the counted
denominator is zero, rounded to one decimal place. -/
def readinessScore (rs : List CheckResult) : ℚ :=
  let counted := rs.filter isCounted
  let den : ℚ := (counted.map (fun r => weight r.severity)).sum
  let num : ℚ := (counted.map credit).sum
  if den = 0 then 0 else (round (100 * num / den * 10) : ℚ) / 10

/-! ## Run status machine

The status enumeration is in the sources twice: the SQL CHECK constraint on
`qa_runs.status` in `supabase_schema.sql` and the `RunStatus` union in
`frontend/src/lib/api.ts`.  The transition logic itself lives in the backend
executor, which is not among the available sources, and is modelled from the
spec. -/

/-- Run status, from the union `'pending' | 'running' | 'completed' | 'failed'`
in `frontend/src/lib/api.ts`. -/
inductive RunState where
  | pending
  | running
  | completed
  | failed
deriving DecidableEq, Repr

/-- The text stored in `qa_runs.status` for each state. -/
def runStateText : RunState → String
  | .pending => "pending"
  | .running => "running"
  | .completed => "completed"
  | .failed => "failed"

/-- The SQL CHECK constraint on `qa_runs.status`:
`CHECK (status IN ('pending', 'running', 'completed', 'failed'))`. -/
def validRunStatus (s : String) : Bool :=
  s = "pending" || s = "running" || s = "completed" || s = "failed"

/-- Modelled from the spec: the Run Executor's status transitions
(`pending -> running -> {completed, failed}`, spec §4.4); the executor code
(`backend/agents/pipeline.py`) is not among the available sources. -/
inductive RunStep : RunState → RunState → Prop
  | start : RunStep .pending .running
  | complete : RunStep .running .completed
  | fail : RunStep .running .failed


/-! ## Concrete sample values -/

/-- A concrete check result, for evaluating the definitions on explicit
inputs. -/
def sampleResult (id : String) (st : CheckStatus) (sev : Severity) : CheckResult :=
  { check_id := id
    check_name := id
    check_category := "utm"
    platform := "meta"
    status := st
    severity := sev
    message := ""
    recommendation := none
    affected_items := []
    execution_ms := 0 }

/-- Sixty URL entries, one more than the submission cap allows. -/
def sixtyEntries : List UrlEntry :=
  List.replicate 60 { url := "https://example.com/landing" }

/-- A filled-in submission form with a nonempty run name. -/
def sampleForm : SubmitForm :=
  { run_name := "Black Friday"
    platform := "meta"
    urlsRaw := ""
    campaign_name := ""
    campaign_objective := ""
    industry_vertical := ""
    headline := ""
    primary_text := ""
    description := "" }

/-! ## Basic lemmas about the JS collection embedding -/

theorem mem_setInsert {acc : List String} {x y : String} :
    y ∈ setInsert acc x ↔ y ∈ acc ∨ y = x := by
  unfold setInsert
  split
  · constructor
    · exact Or.inl
    · rintro (hy | rfl) <;> assumption
  · simp

theorem mem_foldl_setInsert (l : List String) (acc : List String) (y : String) :
    y ∈ l.foldl setInsert acc ↔ y ∈ acc ∨ y ∈ l := by
  induction l generalizing acc with
  | nil => simp
  | cons x xs ih => simp [List.foldl_cons, ih, mem_setInsert, or_assoc]

theorem nodup_foldl_setInsert (l : List String) (acc : List String) (h : acc.Nodup) :
    (l.foldl setInsert acc).Nodup := by
  induction l generalizing acc with
  | nil => simpa
  | cons x xs ih =>
    apply ih
    unfold setInsert
    split
    · exact h
    · rename_i hx
      simp only [List.nodup_append, List.nodup_singleton, true_and]
      exact ⟨h, by simpa [List.disjoint_singleton] using hx⟩

theorem mem_setDedup {l : List String} {y : String} : y ∈ setDedup l ↔ y ∈ l := by
  simp [setDedup, mem_foldl_setInsert]

theorem nodup_setDedup (l : List String) : (setDedup l).Nodup :=
  nodup_foldl_setInsert l [] List.nodup_nil

theorem mem_allIds {a b : List CheckResult} {id : String} :
    id ∈ allIds a b ↔ id ∈ checkIds a ∨ id ∈ checkIds b := by
  simp [allIds, mem_setDedup]

theorem nodup_allIds (a b : List CheckResult) : (allIds a b).Nodup :=
  nodup_setDedup _

theorem mem_checkIds {l : List CheckResult} {id : String} :
    id ∈ checkIds l ↔ ∃ c ∈ l, c.check_id = id := by
  simp [checkIds]

theorem mapGet_eq_none_iff {l : List CheckResult} {id : String} :
    mapGet l id = none ↔ id ∉ checkIds l := by
  unfold mapGet
  rw [List.find?_eq_none]
  constructor
  · intro h hm
    obtain ⟨c, hc, hid⟩ := mem_checkIds.mp hm
    exact h c (List.mem_reverse.mpr hc) (by simp [hid])
  · intro h c hc hp
    exact h (mem_checkIds.mpr ⟨c, List.mem_reverse.mp hc, by simpa using hp⟩)

theorem mapGet_key {l : List CheckResult} {id : String} {c : CheckResult}
    (h : mapGet l id = some c) : c.check_id = id := by
  simpa using List.find?_some h

theorem mapGet_isSome_iff {l : List CheckResult} {id : String} :
    (mapGet l id).isSome ↔ id ∈ checkIds l := by
  rw [Option.isSome_iff_ne_none, ne_eq, mapGet_eq_none_iff, not_not]

theorem mapGet_mem {l : List CheckResult} {id : String} {c : CheckResult}
    (h : mapGet l id = some c) : id ∈ checkIds l :=
  mapGet_isSome_iff.mp (by simp [h])

theorem STATUS_RANK_nonneg (s : CheckStatus) : 0 ≤ STATUS_RANK s := by
  cases s <;> norm_num [STATUS_RANK]

theorem rankOf_some (c : CheckResult) : rankOf (some c) = STATUS_RANK c.status := rfl

theorem mkDiff_checkId (a b : List CheckResult) (id : String) :
    (mkDiff a b id).checkId = id := rfl

theorem mkDiff_diff (a b : List CheckResult) (id : String) :
    (mkDiff a b id).diff =
      (if rankOf (mapGet a id) = -1 then .new
       else if rankOf (mapGet b id) > rankOf (mapGet a id) then .improved
       else if rankOf (mapGet b id) < rankOf (mapGet a id) then .regressed
       else .unchanged) := rfl

theorem diffChecks_perm (a b : List CheckResult) :
    (diffChecks a b).Perm ((allIds a b).map (mkDiff a b)) :=
  List.perm_insertionSort _ _

theorem diffChecks_keys_perm (a b : List CheckResult) :
    ((diffChecks a b).map (·.checkId)).Perm (allIds a b) := by
  have h := (diffChecks_perm a b).map (·.checkId)
  simpa [List.map_map, Function.comp_def, mkDiff_checkId] using h

theorem mem_diffChecks_iff {a b : List CheckResult} {d : CheckDiff} :
    d ∈ diffChecks a b ↔ ∃ id ∈ allIds a b, mkDiff a b id = d :=
  (diffChecks_perm a b).mem_iff.trans List.mem_map

theorem find?_eq_some_of_key_nodup :
    ∀ (l : List CheckDiff) (d : CheckDiff) (id : String),
      (l.map (·.checkId)).Nodup → d ∈ l → d.checkId = id →
      l.find? (fun x => x.checkId = id) = some d
  | x :: xs, d, id, hnd, hd, hid => by
    simp only [List.map_cons, List.nodup_cons] at hnd
    rcases List.mem_cons.mp hd with rfl | hd'
    · exact List.find?_cons_of_pos _ (by simp [hid])
    · have hx : ¬ x.checkId = id := by
        rintro rfl
        exact hnd.1 (hid ▸ List.mem_map.mpr ⟨d, hd', rfl⟩)
      rw [List.find?_cons_of_neg _ (by simp [hx])]
      exact find?_eq_some_of_key_nodup xs d id hnd.2 hd' hid

theorem diffOf_eq_some {a b : List CheckResult} {id : String}
    (h : id ∈ checkIds a ∨ id ∈ checkIds b) :
    diffOf a b id = some (mkDiff a b id).diff := by
  have hid : id ∈ allIds a b := mem_allIds.mpr h
  have hmem : mkDiff a b id ∈ diffChecks a b := mem_diffChecks_iff.mpr ⟨id, hid, rfl⟩
  have hnd : ((diffChecks a b).map (·.checkId)).Nodup :=
    (diffChecks_keys_perm a b).nodup_iff.mpr (nodup_allIds a b)
  unfold diffOf
  rw [find?_eq_some_of_key_nodup _ _ id hnd hmem (mkDiff_checkId a b id)]
  rfl

theorem diffOf_eq_none {a b : List CheckResult} {id : String}
    (ha : id ∉ checkIds a) (hb : id ∉ checkIds b) :
    diffOf a b id = none := by
  unfold diffOf
  rw [List.find?_eq_none.mpr]
  · rfl
  · intro x hx
    obtain ⟨id', hid', rfl⟩ := mem_diffChecks_iff.mp hx
    simp only [mkDiff_checkId, decide_eq_true_eq]
    rintro rfl
    exact (mem_allIds.mp hid').elim ha hb

theorem diffOf_isSome_iff {a b : List CheckResult} {id : String} :
    (diffOf a b id).isSome ↔ id ∈ checkIds a ∨ id ∈ checkIds b := by
  constructor
  · intro h
    by_contra hc
    push_neg at hc
    rw [diffOf_eq_none hc.1 hc.2] at h
    simp at h
  · intro h
    rw [diffOf_eq_some h]
    rfl

theorem diffOf_both {a b : List CheckResult} {id : String} {ca cb : CheckResult}
    (ha : mapGet a id = some ca) (hb : mapGet b id = some cb) :
    diffOf a b id = some
      (if STATUS_RANK cb.status > STATUS_RANK ca.status then .improved
       else if STATUS_RANK cb.status < STATUS_RANK ca.status then .regressed
       else .unchanged) := by
  rw [diffOf_eq_some (Or.inl (mapGet_mem ha)), mkDiff_diff, ha, hb, rankOf_some, rankOf_some]
  have := STATUS_RANK_nonneg ca.status
  rw [if_neg (by omega)]

theorem diffOf_new_eq {a b : List CheckResult} {id : String}
    (ha : mapGet a id = none) (hb : id ∈ checkIds b) :
    diffOf a b id = some .new := by
  rw [diffOf_eq_some (Or.inr hb), mkDiff_diff, ha]
  simp [rankOf]

theorem diffOf_only_left {a b : List CheckResult} {id : String} {ca : CheckResult}
    (ha : mapGet a id = some ca) (hb : mapGet b id = none) :
    diffOf a b id = some .regressed := by
  rw [diffOf_eq_some (Or.inl (mapGet_mem ha)), mkDiff_diff, ha, hb, rankOf_some]
  have := STATUS_RANK_nonneg ca.status
  simp only [rankOf]
  rw [if_neg (by omega), if_neg (by omega), if_pos (by omega)]

theorem diffOf_both_ne_new {a b : List CheckResult} {id : String} {ca cb : CheckResult}
    (ha : mapGet a id = some ca) (hb : mapGet b id = some cb) :
    diffOf a b id ≠ some .new := by
  rw [diffOf_both ha hb]
  split_ifs <;> simp

theorem length_filter_eq_one_of_nodup {l : List String} {id : String}
    (hn : l.Nodup) (hm : id ∈ l) :
    (l.filter (fun x => x = id)).length = 1 := by
  induction l with
  | nil => simp at hm
  | cons x xs ih =>
    rw [List.nodup_cons] at hn
    rcases List.mem_cons.mp hm with rfl | hmem
    · rw [List.filter_cons_of_pos (by simp)]
      have hnil : xs.filter (fun y => y = id) = [] := by
        rw [List.filter_eq_nil_iff]
        intro a ha
        simp only [decide_eq_true_eq]
        rintro rfl
        exact hn.1 ha
      simp [hnil]
    · have hx : ¬ (x = id) := by
        rintro rfl
        exact hn.1 hmem
      rw [List.filter_cons_of_neg (by simp [hx])]
      exact ih hn.2 hmem

theorem sorted_bucket_decomp :
    ∀ l : List CheckDiff,
      l.Pairwise (fun x y => diffOrder x.diff ≤ diffOrder y.diff) →
      l = l.filter (fun d => d.diff = DiffStatus.regressed) ++
          l.filter (fun d => d.diff = DiffStatus.improved) ++
          l.filter (fun d => d.diff = DiffStatus.new) ++
          l.filter (fun d => d.diff = DiffStatus.unchanged)
  | [], _ => rfl
  | x :: xs, hp => by
    rw [List.pairwise_cons] at hp
    have ih := sorted_bucket_decomp xs hp.2
    have hmin : ∀ y ∈ xs, diffOrder x.diff ≤ diffOrder y.diff := hp.1
    have hnil : ∀ k : DiffStatus, diffOrder k < diffOrder x.diff →
        xs.filter (fun d => d.diff = k) = [] := by
      intro k hk
      rw [List.filter_eq_nil_iff]
      intro d hd
      simp only [decide_eq_true_eq]
      intro he
      have h2 := hmin d hd
      rw [he] at h2
      omega
    cases hx : x.diff with
    | regressed =>
      rw [List.filter_cons_of_pos (by simp [hx]),
        List.filter_cons_of_neg (by simp [hx]),
        List.filter_cons_of_neg (by simp [hx]),
        List.filter_cons_of_neg (by simp [hx])]
      simpa using congrArg (x :: ·) ih
    | improved =>
      rw [List.filter_cons_of_neg (by simp [hx]),
        List.filter_cons_of_pos (by simp [hx]),
        List.filter_cons_of_neg (by simp [hx]),
        List.filter_cons_of_neg (by simp [hx]),
        hnil .regressed (by simp [hx, diffOrder])]
      have h0 : xs.filter (fun d => d.diff = DiffStatus.regressed) = [] :=
        hnil .regressed (by simp [hx, diffOrder])
      rw [h0] at ih
      simpa using congrArg (x :: ·) ih
    | new =>
      rw [List.filter_cons_of_neg (by simp [hx]),
        List.filter_cons_of_neg (by simp [hx]),
        List.filter_cons_of_pos (by simp [hx]),
        List.filter_cons_of_neg (by simp [hx]),
        hnil .regressed (by simp [hx, diffOrder]), hnil .improved (by simp [hx, diffOrder])]
      have h0 : xs.filter (fun d => d.diff = DiffStatus.regressed) = [] :=
        hnil .regressed (by simp [hx, diffOrder])
      have h1 : xs.filter (fun d => d.diff = DiffStatus.improved) = [] :=
        hnil .improved (by simp [hx, diffOrder])
      rw [h0, h1] at ih
      simpa using congrArg (x :: ·) ih
    | unchanged =>
      rw [List.filter_cons_of_neg (by simp [hx]),
        List.filter_cons_of_neg (by simp [hx]),
        List.filter_cons_of_neg (by simp [hx]),
        List.filter_cons_of_pos (by simp [hx]),
        hnil .regressed (by simp [hx, diffOrder]), hnil .improved (by simp [hx, diffOrder]),
        hnil .new (by simp [hx, diffOrder])]
      have h0 : xs.filter (fun d => d.diff = DiffStatus.regressed) = [] :=
        hnil .regressed (by simp [hx, diffOrder])
      have h1 : xs.filter (fun d => d.diff = DiffStatus.improved) = [] :=
        hnil .improved (by simp [hx, diffOrder])
      have h2 : xs.filter (fun d => d.diff = DiffStatus.new) = [] :=
        hnil .new (by simp [hx, diffOrder])
      rw [h0, h1, h2] at ih
      simpa using congrArg (x :: ·) ih

/-! ## The claims -/

/-- C3: the Comparator's status ranking function maps the five check statuses
exactly as `passed ↦ 3`, `warning ↦ 2`, `skipped ↦ 1`, `error ↦ 0`,
`failed ↦ 0`. -/
theorem statusRank_values :
    STATUS_RANK .passed = 3 ∧ STATUS_RANK .warning = 2 ∧ STATUS_RANK .skipped = 1 ∧
    STATUS_RANK .error = 0 ∧ STATUS_RANK .failed = 0 :=
  ⟨rfl, rfl, rfl, rfl, rfl⟩

/-- C9: for a check identifier present in both input sets, equal status ranks
make the Comparator report `unchanged`, even when the two statuses themselves
differ (in particular `error` vs `failed`, both of rank 0). -/
theorem comparator_equal_ranks_unchanged (a b : List CheckResult) (id : String)
    (ca cb : CheckResult) (ha : mapGet a id = some ca) (hb : mapGet b id = some cb)
    (hr : STATUS_RANK ca.status = STATUS_RANK cb.status) :
    diffOf a b id = some .unchanged := by
  rw [diffOf_both ha hb, if_neg (by omega), if_neg (by omega)]

/-- C9 witness: a check that moves between `error` and `failed` (different
statuses, both rank 0) is reported `unchanged`. -/
theorem comparator_equal_ranks_unchanged_witness :
    (mapGet [sampleResult "x" .error .minor] "x" = some (sampleResult "x" .error .minor) ∧
     mapGet [sampleResult "x" .failed .minor] "x" = some (sampleResult "x" .failed .minor) ∧
     STATUS_RANK (sampleResult "x" .error .minor).status =
       STATUS_RANK (sampleResult "x" .failed .minor).status ∧
     (sampleResult "x" .error .minor).status ≠ (sampleResult "x" .failed .minor).status) ∧
    diffOf [sampleResult "x" .error .minor] [sampleResult "x" .failed .minor] "x" =
      some .unchanged :=
  ⟨⟨by decide, by decide, by decide, by decide⟩,
    comparator_equal_ranks_unchanged _ _ "x" (sampleResult "x" .error .minor)
      (sampleResult "x" .failed .minor) (by decide) (by decide) (by decide)⟩

/-- C10: a check identifier present in set A but absent from set B is
classified `regressed` whatever its status in A: the absent side gets
rank −1, strictly below every status rank (all of which are ≥ 0). -/
theorem comparator_absent_from_b_regressed (a b : List CheckResult) (id : String)
    (ca : CheckResult) (ha : mapGet a id = some ca) (hb : mapGet b id = none) :
    diffOf a b id = some .regressed ∧ rankOf (mapGet b id) = -1 ∧
    ∀ s : CheckStatus, 0 ≤ STATUS_RANK s :=
  ⟨diffOf_only_left ha hb, by rw [hb]; rfl, STATUS_RANK_nonneg⟩

/-- C10 witness: a check that was already `failed` in A and disappears from B
is still reported `regressed`. -/
theorem comparator_absent_from_b_regressed_witness :
    (mapGet [sampleResult "x" .failed .critical] "x" = some (sampleResult "x" .failed .critical) ∧
     mapGet ([] : List CheckResult) "x" = none) ∧
    (diffOf [sampleResult "x" .failed .critical] [] "x" = some .regressed ∧
     rankOf (mapGet ([] : List CheckResult) "x") = -1 ∧
     ∀ s : CheckStatus, 0 ≤ STATUS_RANK s) :=
  ⟨⟨by decide, by decide⟩,
    comparator_absent_from_b_regressed _ _ "x" (sampleResult "x" .failed .critical)
      (by decide) (by decide)⟩

/-- C4: the Comparator's output is ordered by the diff classification —
all `regressed` entries first, then `improved`, then `new`, then `unchanged`:
the four-valued sort key is non-decreasing along the list, and the list is
the concatenation of its four classification buckets in that order. -/
theorem comparator_output_ordered (a b : List CheckResult) :
    (diffChecks a b).Pairwise (fun x y => diffOrder x.diff ≤ diffOrder y.diff) ∧
    diffChecks a b =
      (diffChecks a b).filter (fun d => d.diff = DiffStatus.regressed) ++
      (diffChecks a b).filter (fun d => d.diff = DiffStatus.improved) ++
      (diffChecks a b).filter (fun d => d.diff = DiffStatus.new) ++
      (diffChecks a b).filter (fun d => d.diff = DiffStatus.unchanged) := by
  have hs : (diffChecks a b).Pairwise (fun x y => diffOrder x.diff ≤ diffOrder y.diff) :=
    List.sorted_insertionSort diffLe ((allIds a b).map (mkDiff a b))
  exact ⟨hs, sorted_bucket_decomp _ hs⟩

/-- C2: for every check identifier present in either input set, the
Comparator produces exactly one diff entry, classified `new` iff the
identifier is absent from A, and — when it is present in A — `improved` iff
rank(B) > rank(A), `regressed` iff rank(B) < rank(A) and `unchanged` iff the
ranks agree (with an identifier absent from B ranked −1); entries exist only
for identifiers present in one of the sets. -/
theorem comparator_classification (a b : List CheckResult) (id : String)
    (h : id ∈ checkIds a ∨ id ∈ checkIds b) :
    ((diffChecks a b).filter (fun d => d.checkId = id)).length = 1 ∧
    (∀ d ∈ diffChecks a b, d.checkId ∈ checkIds a ∨ d.checkId ∈ checkIds b) ∧
    (∀ d ∈ diffChecks a b, d.checkId = id →
      ((d.diff = .new ↔ id ∉ checkIds a) ∧
       (id ∈ checkIds a →
         ((d.diff = .improved ↔ rankOf (mapGet b id) > rankOf (mapGet a id)) ∧
          (d.diff = .regressed ↔ rankOf (mapGet b id) < rankOf (mapGet a id)) ∧
          (d.diff = .unchanged ↔ rankOf (mapGet b id) = rankOf (mapGet a id)))))) := by
  refine ⟨?_, ?_, ?_⟩
  · have hperm := (diffChecks_perm a b).filter (fun d => decide (d.checkId = id))
    rw [hperm.length_eq, List.filter_map]
    have hcongr : ((allIds a b).filter ((fun d => decide (d.checkId = id)) ∘ mkDiff a b)) =
        ((allIds a b).filter (fun x => x = id)) := by
      apply List.filter_congr
      intro x _
      simp [mkDiff_checkId]
    rw [hcongr, List.length_map]
    exact length_filter_eq_one_of_nodup (nodup_allIds a b) (mem_allIds.mpr h)
  · intro d hd
    obtain ⟨id', hid', rfl⟩ := mem_diffChecks_iff.mp hd
    rw [mkDiff_checkId]
    exact mem_allIds.mp hid'
  · intro d hd hkey
    obtain ⟨id', hid', rfl⟩ := mem_diffChecks_iff.mp hd
    rw [mkDiff_checkId] at hkey
    rw [hkey, mkDiff_diff]
    by_cases hin : id ∈ checkIds a
    · obtain ⟨ca, hca⟩ := Option.isSome_iff_exists.mp (mapGet_isSome_iff.mpr hin)
      have h0 := STATUS_RANK_nonneg ca.status
      rw [hca, rankOf_some, if_neg (by omega)]
      refine ⟨?_, fun _ => ⟨?_, ?_, ?_⟩⟩ <;> split_ifs with h1 h2 <;>
        simp [hin] <;> omega
    · rw [(mapGet_eq_none_iff.mpr hin : mapGet a id = none)]
      simp only [rankOf, if_pos rfl]
      exact ⟨by simp [hin], fun hc => (hin hc).elim⟩

/-- C2 witness: for an identifier present in both sets the output holds
exactly one entry for it. -/
theorem comparator_classification_witness :
    (("x" : String) ∈ checkIds [sampleResult "x" .passed .minor] ∨
     ("x" : String) ∈ checkIds [sampleResult "x" .failed .minor]) ∧
    ((diffChecks [sampleResult "x" .passed .minor] [sampleResult "x" .failed .minor]).filter
      (fun d => d.checkId = "x")).length = 1 :=
  ⟨by decide,
    (comparator_classification [sampleResult "x" .passed .minor]
      [sampleResult "x" .failed .minor] "x" (by decide)).1⟩

/-- C5 counterexample: with A = {c1 : passed} and B = ∅ the check `c1` is
`regressed` in the comparison (A, B) but `new` — not `improved` — in the
comparison (B, A), so the `improved`/`regressed` classifications are not
swapped between the two directions. -/
theorem comparator_symmetry_counterexample :
    diffOf [sampleResult "c1" .passed .minor] [] "c1" = some .regressed ∧
    diffOf [] [sampleResult "c1" .passed .minor] "c1" = some .new ∧
    ¬ diffOf [] [sampleResult "c1" .passed .minor] "c1" = some .improved := by
  refine ⟨?_, ?_, ?_⟩ <;> decide

/-- C5 (amended): comparing (A, B) and (B, A) yields the same set of check
identifiers and identical `unchanged` sets; for identifiers present in both
sets the `improved` and `regressed` classifications are swapped; the `new`
set of each direction is exactly the identifiers present only in that
direction's second argument; and an identifier present only in the first
argument is classified `regressed` (not mirrored as `improved`). -/
theorem comparator_symmetry_amended (a b : List CheckResult) :
    (∀ id : String, (diffOf a b id).isSome ↔ (diffOf b a id).isSome) ∧
    (∀ id : String, diffOf a b id = some .unchanged ↔ diffOf b a id = some .unchanged) ∧
    (∀ id : String, id ∈ checkIds a → id ∈ checkIds b →
      ((diffOf a b id = some .improved ↔ diffOf b a id = some .regressed) ∧
       (diffOf a b id = some .regressed ↔ diffOf b a id = some .improved))) ∧
    (∀ id : String, diffOf a b id = some .new ↔ (id ∈ checkIds b ∧ id ∉ checkIds a)) ∧
    (∀ id : String, diffOf b a id = some .new ↔ (id ∈ checkIds a ∧ id ∉ checkIds b)) ∧
    (∀ id : String, id ∈ checkIds a → id ∉ checkIds b → diffOf a b id = some .regressed) := by
  have hnew : ∀ (u v : List CheckResult) (id : String),
      diffOf u v id = some .new ↔ (id ∈ checkIds v ∧ id ∉ checkIds u) := by
    intro u v id
    constructor
    · intro hval
      by_cases hu : id ∈ checkIds u
      · obtain ⟨cu, hcu⟩ := Option.isSome_iff_exists.mp (mapGet_isSome_iff.mpr hu)
        by_cases hv : id ∈ checkIds v
        · obtain ⟨cv, hcv⟩ := Option.isSome_iff_exists.mp (mapGet_isSome_iff.mpr hv)
          exact (diffOf_both_ne_new hcu hcv hval).elim
        · rw [diffOf_only_left hcu (mapGet_eq_none_iff.mpr hv)] at hval
          simp at hval
      · by_cases hv : id ∈ checkIds v
        · exact ⟨hv, hu⟩
        · rw [diffOf_eq_none hu hv] at hval
          simp at hval
    · rintro ⟨hv, hu⟩
      exact diffOf_new_eq (mapGet_eq_none_iff.mpr hu) hv
  refine ⟨?_, ?_, ?_, hnew a b, hnew b a, ?_⟩
  · intro id
    rw [diffOf_isSome_iff, diffOf_isSome_iff, or_comm]
  · intro id
    by_cases hu : id ∈ checkIds a
    · obtain ⟨ca, hca⟩ := Option.isSome_iff_exists.mp (mapGet_isSome_iff.mpr hu)
      by_cases hv : id ∈ checkIds b
      · obtain ⟨cb, hcb⟩ := Option.isSome_iff_exists.mp (mapGet_isSome_iff.mpr hv)
        rw [diffOf_both hca hcb, diffOf_both hcb hca]
        split_ifs <;> first | (exfalso; omega) | simp
      · rw [diffOf_only_left hca (mapGet_eq_none_iff.mpr hv),
          diffOf_new_eq (mapGet_eq_none_iff.mpr hv) hu]
        simp
    · by_cases hv : id ∈ checkIds b
      · obtain ⟨cb, hcb⟩ := Option.isSome_iff_exists.mp (mapGet_isSome_iff.mpr hv)
        rw [diffOf_new_eq (mapGet_eq_none_iff.mpr hu) hv,
          diffOf_only_left hcb (mapGet_eq_none_iff.mpr hu)]
        simp
      · rw [diffOf_eq_none hu hv, diffOf_eq_none hv hu]
  · intro id hu hv
    obtain ⟨ca, hca⟩ := Option.isSome_iff_exists.mp (mapGet_isSome_iff.mpr hu)
    obtain ⟨cb, hcb⟩ := Option.isSome_iff_exists.mp (mapGet_isSome_iff.mpr hv)
    rw [diffOf_both hca hcb, diffOf_both hcb hca]
    split_ifs <;> first | (exfalso; omega) | simp
  · intro id hu hv
    obtain ⟨ca, hca⟩ := Option.isSome_iff_exists.mp (mapGet_isSome_iff.mpr hu)
    exact diffOf_only_left hca (mapGet_eq_none_iff.mpr hv)

/-- C5 amended witness: for a check present in both sets, `improved` in one
direction is exactly `regressed` in the other. -/
theorem comparator_symmetry_amended_witness :
    (("x" : String) ∈ checkIds [sampleResult "x" .failed .minor] ∧
     ("x" : String) ∈ checkIds [sampleResult "x" .passed .minor]) ∧
    (diffOf [sampleResult "x" .failed .minor] [sampleResult "x" .passed .minor] "x" =
        some .improved ↔
     diffOf [sampleResult "x" .passed .minor] [sampleResult "x" .failed .minor] "x" =
        some .regressed) :=
  ⟨⟨by decide, by decide⟩,
    ((comparator_symmetry_amended [sampleResult "x" .failed .minor]
      [sampleResult "x" .passed .minor]).2.2.1 "x" (by decide) (by decide)).1⟩

/-- C6: a submission whose URL entry list is empty or has more than 50
entries is rejected by `handleSubmit` with an error, and `api.createRun` is
never called (the handler returns an `Except.error`, never an `Except.ok`
payload). -/
theorem submit_rejects_invalid_url_count (urlMode : UrlMode) (csvEntries : List UrlEntry)
    (form : SubmitForm)
    (h : (submittedUrls urlMode csvEntries form.urlsRaw).length = 0 ∨
         50 < (submittedUrls urlMode csvEntries form.urlsRaw).length) :
    ∃ e, handleSubmit urlMode csvEntries form = .error e := by
  cases urlMode with
  | csv =>
    simp only [submittedUrls] at h
    simp only [handleSubmit, submitTail]
    rcases h with h | h
    · exact ⟨_, by rw [if_pos h]⟩
    · rw [if_neg (by omega)]
      by_cases hr : form.run_name.trim = ""
      · exact ⟨_, by rw [if_pos hr]⟩
      · exact ⟨_, by rw [if_neg hr, if_pos (by omega)]⟩
  | paste =>
    simp only [submittedUrls, List.length_map] at h
    simp only [handleSubmit, submitTail]
    rcases h with h | h
    · exact ⟨_, by rw [if_pos h]⟩
    · rw [if_neg (by omega)]
      by_cases hr : form.run_name.trim = ""
      · exact ⟨_, by rw [if_pos hr]⟩
      · exact ⟨_, by rw [if_neg hr, if_pos (by rw [List.length_map]; omega)]⟩

/-- C6 witness: sixty submitted URLs are rejected and no run is created. -/
theorem submit_rejects_invalid_url_count_witness :
    ((submittedUrls .csv sixtyEntries sampleForm.urlsRaw).length = 0 ∨
     50 < (submittedUrls .csv sixtyEntries sampleForm.urlsRaw).length) ∧
    ∃ e, handleSubmit .csv sixtyEntries sampleForm = .error e :=
  ⟨by decide, submit_rejects_invalid_url_count .csv sixtyEntries sampleForm (by decide)⟩

/-- C7: a run in which every check result is `skipped` or `error` — so the
counted denominator of the scoring formula is zero — scores 0 instead of
dividing by zero. -/
theorem scorer_zero_when_all_uncounted (rs : List CheckResult)
    (h : ∀ r ∈ rs, r.status = CheckStatus.skipped ∨ r.status = CheckStatus.error) :
    readinessScore rs = 0 := by
  have hf : rs.filter isCounted = [] := by
    rw [List.filter_eq_nil_iff]
    intro r hr
    rcases h r hr with h1 | h1 <;> simp [isCounted, h1]
  simp [readinessScore, hf]

/-- C7 witness: a run with one `skipped` and one `error` result scores 0. -/
theorem scorer_zero_when_all_uncounted_witness :
    (∀ r ∈ [sampleResult "s" .skipped .minor, sampleResult "e" .error .major],
      r.status = CheckStatus.skipped ∨ r.status = CheckStatus.error) ∧
    readinessScore [sampleResult "s" .skipped .minor, sampleResult "e" .error .major] = 0 :=
  ⟨by decide, scorer_zero_when_all_uncounted _ (by decide)⟩

/-- C1: on the run {critical: passed, major: failed, minor: warning} the
readiness score is 100 × 4.5 / 7, rounded to one decimal place, i.e. 64.3;
adding a `skipped` and an `error` result (excluded from numerator and
denominator) leaves the score unchanged. -/
theorem scorer_scenario_value :
    readinessScore [sampleResult "c" .passed .critical, sampleResult "m" .failed .major,
      sampleResult "n" .warning .minor] = 643 / 10 ∧
    readinessScore [sampleResult "c" .passed .critical, sampleResult "m" .failed .major,
      sampleResult "n" .warning .minor, sampleResult "s" .skipped .critical,
      sampleResult "e" .error .critical] = 643 / 10 := by
  constructor <;>
  · norm_num [readinessScore, isCounted, credit, weight, sampleResult, round_eq]

/-- C8: every run status is one of the four schema-checked values, and the
modelled executor transitions are exactly `pending → running` and
`running → {completed, failed}`; the terminal states admit no further step,
so every status history starting at `pending` is a prefix of
`pending, running, (completed | failed)`. -/
theorem run_status_machine :
    (∀ s : RunState, validRunStatus (runStateText s) = true) ∧
    (∀ s t : RunState, RunStep s t →
      (s = .pending ∧ t = .running) ∨ (s = .running ∧ (t = .completed ∨ t = .failed))) ∧
    (∀ t : RunState, ¬ RunStep .completed t) ∧
    (∀ t : RunState, ¬ RunStep .failed t) ∧
    (∀ l : List RunState, l.Chain' RunStep → l.head? = some .pending →
      l = [.pending] ∨ l = [.pending, .running] ∨
      l = [.pending, .running, .completed] ∨ l = [.pending, .running, .failed]) := by
  refine ⟨?_, ?_, ?_, ?_, ?_⟩
  · intro s
    cases s <;> rfl
  · intro s t h
    cases h with
    | start => exact Or.inl ⟨rfl, rfl⟩
    | complete => exact Or.inr ⟨rfl, Or.inl rfl⟩
    | fail => exact Or.inr ⟨rfl, Or.inr rfl⟩
  · intro t h
    cases h
  · intro t h
    cases h
  intro l hc hh
  match l with
  | [] => simp at hh
  | [x] =>
    simp only [List.head?_cons, Option.some.injEq] at hh
    subst hh
    exact Or.inl rfl
  | x :: y :: rest =>
    simp only [List.head?_cons, Option.some.injEq] at hh
    subst hh
    rw [List.chain'_cons] at hc
    cases hc.1
    have hc2 := hc.2
    match rest with
    | [] => exact Or.inr (Or.inl rfl)
    | z :: rest2 =>
      rw [List.chain'_cons] at hc2
      cases hc2.1 with
      | complete =>
        match rest2 with
        | [] => exact Or.inr (Or.inr (Or.inl rfl))
        | w :: _ =>
          rw [List.chain'_cons] at hc2
          exact (by cases hc2.2.1 : False).elim
      | fail =>
        match rest2 with
        | [] => exact Or.inr (Or.inr (Or.inr rfl))
        | w :: _ =>
          rw [List.chain'_cons] at hc2
          exact (by cases hc2.2.1 : False).elim

/-- C8 witness: the history `pending, running, completed` is a valid chain
and indeed one of the four allowed histories. -/
theorem run_status_machine_witness :
    (([RunState.pending, .running, .completed] : List RunState).Chain' RunStep ∧
     ([RunState.pending, .running, .completed] : List RunState).head? = some .pending) ∧
    ([RunState.pending, .running, .completed] = ([RunState.pending] : List RunState) ∨
     [RunState.pending, .running, .completed] = ([RunState.pending, .running] : List RunState) ∨
     [RunState.pending, .running, .completed] =
       ([RunState.pending, .running, .completed] : List RunState) ∨
     [RunState.pending, .running, .completed] =
       ([RunState.pending, .running, .failed] : List RunState)) := by
  have hchain : ([RunState.pending, .running, .completed] : List RunState).Chain' RunStep := by
    rw [List.chain'_cons, List.chain'_cons]
    exact ⟨.start, .complete, List.chain'_singleton _⟩
  exact ⟨⟨hchain, rfl⟩, run_status_machine.2.2.2.2 _ hchain rfl⟩

end CampaignQA
